import Mathlib

/-!
Verification of the roxy-core content-transformation pipeline (`src/roxy.rs`)
against its specification.  The Rust code is shallowly embedded: byte buffers
become `List UInt8`, `std::io::Result` becomes `Except IoError`, and the
mutable destination `Vec<u8>` of `Parser::parse` is made explicit by returning
the final destination contents alongside the result.
-/

/-- Embeds the `std::io::ErrorKind` values used by `roxy.rs`. -/
inductive ErrorKind where
  | invalidData
  | notFound
  | other
deriving DecidableEq, Repr

/-- Embeds `std::io::Error` as used here: a kind plus a message string
(`std::io::Error::new(kind, msg)`). -/
structure IoError where
  kind : ErrorKind
  msg : String
deriving DecidableEq, Repr

/-- Embeds the `Parse` trait: `fn parse(&mut self, path: &str, src: &[u8],
dst: &mut Vec<u8>) -> std::io::Result<()>`.  A step receives the context path,
the input bytes and the current contents of the destination buffer, and on
success yields the destination buffer's new contents (the trait lets an
implementation read and rewrite `dst` arbitrarily, so the model takes the
prior contents as an argument). -/
structure Parse where
  parse : String → List UInt8 → List UInt8 → Except IoError (List UInt8)

/-- Embeds the `try_fold` loop in `<Parser as Parse>::parse`
(`src/roxy.rs:34-39`): state is the pair of ping-pong buffers
`(src-role, dst-role)`; each step first clears the dst-role buffer
(`dst.clear()`, hence the `[]` passed as the step's prior destination
contents), runs `p.parse(path, src, dst)`, and on success swaps the roles
(`.map(|()| (dst, src))`). -/
def parseSteps : List Parse → String → List UInt8 × List UInt8 →
    Except IoError (List UInt8 × List UInt8)
  | [], _, bufs => Except.ok bufs
  | p :: rest, path, (src, _dst) =>
    (p.parse path src []).bind fun out => parseSteps rest path (out, src)

/-- Embeds `<Parser as Parse>::parse` (`src/roxy.rs:30-41`).  `buf_1` is a
copy of `src`, `buf_2` a copy of the caller's `dst`; after the fold the
surviving buffer `a` is appended to the caller's `dst` (`dst.write_all(a)`,
which on a `Vec<u8>` appends and never fails).  The returned pair is
(result, final contents of the caller's `dst`); on error the `?` operator
propagates before `write_all` runs, so `dst` is unchanged. -/
def Parser.parse (steps : List Parse) (path : String) (src dst : List UInt8) :
    Except IoError Unit × List UInt8 :=
  let buf_1 := src
  let buf_2 := dst
  match parseSteps steps path (buf_1, buf_2) with
  | Except.ok (a, _) => (Except.ok (), dst ++ a)
  | Except.error e => (Except.error e, dst)

/-- The specification's sequential semantics of a chain (§4.2): the first
step consumes the pipeline's original input, each later step consumes exactly
the previous step's output, every step starts from a cleared destination
buffer, and an empty chain is the identity.  Stated from the spec's words, to
be compared with `Parser.parse`. -/
def specChain : List Parse → String → List UInt8 → Except IoError (List UInt8)
  | [], _, input => Except.ok input
  | s :: rest, path, input => (s.parse path input []).bind (specChain rest path)

theorem parseSteps_of_specChain_ok (steps : List Parse) (path : String) :
    ∀ a b res, specChain steps path a = Except.ok res →
      ∃ y, parseSteps steps path (a, b) = Except.ok (res, y) := by
  intro a b res h
  induction steps generalizing a b res with
  | nil =>
    simp [specChain] at h
    exact ⟨b, by simp [parseSteps, h]⟩
  | cons s rest ih =>
    simp only [specChain] at h
    cases hs : s.parse path a [] with
    | ok out =>
      rw [hs] at h
      simp only [Except.bind] at h
      obtain ⟨y, hy⟩ := ih out a res h
      exact ⟨y, by simp [parseSteps, hs, Except.bind, hy]⟩
    | error e =>
      rw [hs] at h
      simp [Except.bind] at h

theorem parseSteps_of_specChain_err (steps : List Parse) (path : String) :
    ∀ a b e, specChain steps path a = Except.error e →
      parseSteps steps path (a, b) = Except.error e := by
  intro a b e h
  induction steps generalizing a b with
  | nil => simp [specChain] at h
  | cons s rest ih =>
    simp only [specChain] at h
    cases hs : s.parse path a [] with
    | ok out =>
      rw [hs] at h
      simp only [Except.bind] at h
      simp [parseSteps, hs, Except.bind, ih out a h]
    | error e' =>
      rw [hs] at h
      simp only [Except.bind] at h
      cases h
      simp [parseSteps, hs, Except.bind]

/-- The full functional characterization of `Parser.parse` in terms of the
spec-side chain: on success the final bytes are appended to the caller's
destination, on failure the destination is returned untouched. -/
theorem parse_eq_specChain (steps : List Parse) (path : String)
    (src dst : List UInt8) :
    Parser.parse steps path src dst =
      match specChain steps path src with
      | Except.ok res => (Except.ok (), dst ++ res)
      | Except.error e => (Except.error e, dst) := by
  cases h : specChain steps path src with
  | ok res =>
    obtain ⟨y, hy⟩ := parseSteps_of_specChain_ok steps path src dst res h
    simp [Parser.parse, hy]
  | error e =>
    simp [Parser.parse, parseSteps_of_specChain_err steps path src dst e h]

/-- C1: a pipeline with zero steps writes exactly the input bytes to an
initially empty destination buffer (pass-through identity). -/
theorem empty_pipeline_identity (path : String) (x : List UInt8) :
    Parser.parse [] path x [] = (Except.ok (), x) := by
  simp [Parser.parse, parseSteps]

/-- C3: the ping-pong buffer protocol of `Parser::parse` implements exactly
the sequential chain semantics: the first step receives the pipeline's
original input, every later step receives precisely the bytes produced by the
immediately preceding step, each step runs against a destination buffer that
was cleared immediately before it (the `[]` in `specChain`), and no step can
observe bytes produced by a step two or more positions earlier (the state of
`specChain` is only the previous step's output). -/
theorem buffer_handoff (steps : List Parse) (path : String)
    (src dst : List UInt8) :
    Parser.parse steps path src dst =
      match specChain steps path src with
      | Except.ok res => (Except.ok (), dst ++ res)
      | Except.error e => (Except.error e, dst) :=
  parse_eq_specChain steps path src dst

/-- C10: a successful `Parser::parse` appends the final result after the
bytes already in the caller's destination buffer (`dst.write_all` on a
`Vec<u8>` appends); the pre-existing contents survive as a prefix, so
pass-through equality with the input holds only for an initially empty
destination. -/
theorem parse_appends_to_destination (steps : List Parse) (path : String)
    (src dst res : List UInt8)
    (h : specChain steps path src = Except.ok res) :
    Parser.parse steps path src dst = (Except.ok (), dst ++ res) := by
  rw [parse_eq_specChain, h]

/-- A concrete step that copies its input after the destination contents
(used only to instantiate theorems with hypotheses). -/
def idStep : Parse :=
  ⟨fun _ src dst => Except.ok (dst ++ src)⟩

/-- A concrete always-failing step (used only to instantiate theorems). -/
def failStep : Parse :=
  ⟨fun _ _ _ => Except.error ⟨ErrorKind.invalidData, "boom"⟩⟩

theorem parse_appends_to_destination_witness :
    specChain [idStep] "p" [3] = Except.ok [3] ∧
    Parser.parse [idStep] "p" [3] [1, 2] = (Except.ok (), [1, 2, 3]) :=
  ⟨by rfl, parse_appends_to_destination [idStep] "p" [3] [1, 2] [3] (by rfl)⟩

/-- Wraps a step so that it behaves like the original only when invoked with
the fixed context identifier `path0`, and fails otherwise.  Used to express
that the pipeline hands every step exactly the caller's identifier. -/
def onlyAt (path0 : String) (p : Parse) : Parse :=
  ⟨fun path src dst =>
    if path = path0 then p.parse path src dst
    else Except.error ⟨ErrorKind.other, "context identifier changed"⟩⟩

theorem parseSteps_onlyAt (steps : List Parse) (path : String) :
    ∀ bufs, parseSteps (steps.map (onlyAt path)) path bufs =
      parseSteps steps path bufs := by
  intro bufs
  induction steps generalizing bufs with
  | nil => rfl
  | cons s rest ih =>
    obtain ⟨a, b⟩ := bufs
    simp only [List.map, parseSteps, onlyAt, if_pos rfl]
    cases s.parse path a [] with
    | ok out => simp [Except.bind, ih]
    | error e => simp [Except.bind]

/-- C5: context threading — replacing every step by a guard that only accepts
the caller-supplied context identifier (and fails on any other identifier)
does not change the run at all, for every pipeline, input and destination: so
each step's `parse` call receives exactly the identifier the caller passed to
`Parser::parse`, unchanged for every step in the chain. -/
theorem context_threading (steps : List Parse) (path : String)
    (src dst : List UInt8) :
    Parser.parse (steps.map (onlyAt path)) path src dst =
      Parser.parse steps path src dst := by
  simp only [Parser.parse, parseSteps_onlyAt]

theorem specChain_append (l1 l2 : List Parse) (path : String) :
    ∀ src, specChain (l1 ++ l2) path src =
      (specChain l1 path src).bind (specChain l2 path) := by
  intro src
  induction l1 generalizing src with
  | nil => rfl
  | cons s rest ih =>
    simp only [List.cons_append, specChain]
    cases s.parse path src [] with
    | ok out => simp [Except.bind, ih]
    | error e => simp [Except.bind]

/-- The file system visible to the orchestrator, modelled as an association
list from path strings to file contents. -/
def FileSystem : Type := List (String × List UInt8)

/-- Looks a path up in the modelled file system (most recent write first). -/
def fsLookup : FileSystem → String → Option (List UInt8)
  | [], _ => none
  | (k, v) :: rest, key => if k = key then some v else fsLookup rest key

/-- Embeds `Roxy::load` composed with `Asset`'s `read_to_end`: opening `path`
yields the file's full contents, or a NotFound `io::Error`; the file system
itself is the association list above. -/
def Roxy.load (fs : FileSystem) (path : String) : Except IoError (List UInt8) :=
  match fsLookup fs path with
  | some bs => Except.ok bs
  | none => Except.error ⟨ErrorKind.notFound, "No such file or directory"⟩

/-- Embeds `Roxy::read_asset` (`src/roxy.rs:131-143`): `src` holds the bytes
read from the asset, `dst` starts empty, and the pipeline runs with
`asset.path` — the path the asset was loaded from — as context identifier. -/
def Roxy.read_asset (steps : List Parse) (assetPath : String)
    (srcBytes : List UInt8) : Except IoError (List UInt8) :=
  match Parser.parse steps assetPath srcBytes [] with
  | (Except.ok _, dst) => Except.ok dst
  | (Except.error e, _) => Except.error e

/-- Embeds `Roxy::parse` (`src/roxy.rs:151-155`): convert the path to a
string (paths are modelled as strings, so `path_to_str` always succeeds),
load the asset at `path`, and run `read_asset` on it. -/
def Roxy.parse (fs : FileSystem) (steps : List Parse) (path : String) :
    Except IoError (List UInt8) :=
  (Roxy.load fs path).bind (Roxy.read_asset steps path)

/-- Embeds `Roxy::process_file` (`src/roxy.rs:163-170`): run `Roxy::parse` on
the input path; only on success create the output file and write the bytes
(`mkdir_and_open` and `write_all`; directory creation and the write always
succeed in the model).  Returns the result paired with the file system after
the call. -/
def Roxy.process_file (fs : FileSystem) (input output : String)
    (steps : List Parse) : Except IoError Unit × FileSystem :=
  match Roxy.parse fs steps input with
  | Except.error e => (Except.error e, fs)
  | Except.ok buf => (Except.ok (), (output, buf) :: fs)

/-- C2: failure short-circuit and atomicity.  If the steps before `s` all
succeed (producing `mid`) and `s` fails with error `e`, then: (1) the whole
`Parser::parse` run returns exactly `e` and leaves the caller's destination
buffer untouched; (2) the steps after `s` never influence the run — replacing
them by any other list gives the identical outcome; (3) at the orchestrator
level, `process_file` returns `e` and the file system — in particular the
output file — is unmodified. -/
theorem failure_short_circuit
    (pre : List Parse) (s : Parse) (post post' : List Parse)
    (input output : String) (fs : FileSystem)
    (src mid dst : List UInt8) (e : IoError)
    (hfs : fsLookup fs input = some src)
    (hpre : specChain pre input src = Except.ok mid)
    (hfail : s.parse input mid [] = Except.error e) :
    Parser.parse (pre ++ s :: post) input src dst = (Except.error e, dst) ∧
    Parser.parse (pre ++ s :: post) input src dst =
      Parser.parse (pre ++ s :: post') input src dst ∧
    Roxy.process_file fs input output (pre ++ s :: post) =
      (Except.error e, fs) := by
  have hchain : ∀ q : List Parse,
      specChain (pre ++ s :: q) input src = Except.error e := by
    intro q
    rw [specChain_append, hpre]
    simp [Except.bind, specChain, hfail]
  have hparse : ∀ (q : List Parse) (d : List UInt8),
      Parser.parse (pre ++ s :: q) input src d = (Except.error e, d) := by
    intro q d
    rw [parse_eq_specChain, hchain]
  refine ⟨hparse post dst, by rw [hparse, hparse], ?_⟩
  simp [Roxy.process_file, Roxy.parse, Roxy.load, hfs, Except.bind,
    Roxy.read_asset, hparse]

theorem failure_short_circuit_witness :
    fsLookup [("in.md", [104, 105])] "in.md" = some [104, 105] ∧
    specChain [idStep] "in.md" [104, 105] = Except.ok [104, 105] ∧
    failStep.parse "in.md" [104, 105] [] =
      Except.error ⟨ErrorKind.invalidData, "boom"⟩ ∧
    (Parser.parse ([idStep] ++ failStep :: [idStep]) "in.md" [104, 105] [7] =
        (Except.error ⟨ErrorKind.invalidData, "boom"⟩, [7]) ∧
      Parser.parse ([idStep] ++ failStep :: [idStep]) "in.md" [104, 105] [7] =
        Parser.parse ([idStep] ++ failStep :: []) "in.md" [104, 105] [7] ∧
      Roxy.process_file [("in.md", [104, 105])] "in.md" "out.html"
          ([idStep] ++ failStep :: [idStep]) =
        (Except.error ⟨ErrorKind.invalidData, "boom"⟩,
          [("in.md", [104, 105])])) :=
  ⟨by rfl, by rfl, by rfl,
    failure_short_circuit [idStep] failStep [idStep] [] "in.md" "out.html"
      [("in.md", [104, 105])] [104, 105] [104, 105] [7]
      ⟨ErrorKind.invalidData, "boom"⟩ (by rfl) (by rfl) (by rfl)⟩

/-- The UTF-8 encoding of one character (the encoding Rust `String` bytes
use). -/
def encodeChar (c : Char) : List UInt8 :=
  let n := c.toNat
  if n < 0x80 then [UInt8.ofNat n]
  else if n < 0x800 then
    [UInt8.ofNat (0xC0 ||| (n >>> 6)), UInt8.ofNat (0x80 ||| (n &&& 0x3F))]
  else if n < 0x10000 then
    [UInt8.ofNat (0xE0 ||| (n >>> 12)),
     UInt8.ofNat (0x80 ||| ((n >>> 6) &&& 0x3F)),
     UInt8.ofNat (0x80 ||| (n &&& 0x3F))]
  else
    [UInt8.ofNat (0xF0 ||| (n >>> 18)),
     UInt8.ofNat (0x80 ||| ((n >>> 12) &&& 0x3F)),
     UInt8.ofNat (0x80 ||| ((n >>> 6) &&& 0x3F)),
     UInt8.ofNat (0x80 ||| (n &&& 0x3F))]

/-- The bytes of a Rust `String`/`&str`: UTF-8 encoding of its characters. -/
def strBytes (s : String) : List UInt8 :=
  s.data.foldr (fun c acc => encodeChar c ++ acc) []

/-- The Unicode replacement character U+FFFD. -/
def replChar : Char := Char.ofNat 0xFFFD

/-- Is `b` a UTF-8 continuation byte (`0x80..=0xBF`)? -/
def isCont (b : UInt8) : Bool := 0x80 ≤ b && b < 0xC0

/-- The scalar-value contribution of a continuation byte. -/
def contVal (b : UInt8) : Nat := (b &&& 0x3F).toNat

/-- Decodes one UTF-8 scalar starting at byte `b` with remaining input
`rest`, as Rust's `String::from_utf8_lossy` does: a maximal invalid subpart
is replaced by one U+FFFD.  Returns the decoded (or replacement) character
and the not-yet-consumed bytes; always consumes at least `b`. -/
def utf8DecodeOne (b : UInt8) (rest : List UInt8) : Char × List UInt8 :=
  if b < 0x80 then (Char.ofNat b.toNat, rest)
  else if b < 0xC2 then (replChar, rest)
  else if b < 0xE0 then
    match rest with
    | c1 :: r1 =>
      if isCont c1 then
        (Char.ofNat (((b.toNat &&& 0x1F) <<< 6) ||| contVal c1), r1)
      else (replChar, rest)
    | [] => (replChar, [])
  else if b < 0xF0 then
    let okFirst : UInt8 → Bool := fun c1 =>
      if b = 0xE0 then 0xA0 ≤ c1 && c1 < 0xC0
      else if b = 0xED then 0x80 ≤ c1 && c1 < 0xA0
      else isCont c1
    match rest with
    | c1 :: r1 =>
      if okFirst c1 then
        match r1 with
        | c2 :: r2 =>
          if isCont c2 then
            (Char.ofNat (((b.toNat &&& 0x0F) <<< 12) |||
              (contVal c1 <<< 6) ||| contVal c2), r2)
          else (replChar, r1)
        | [] => (replChar, [])
      else (replChar, rest)
    | [] => (replChar, [])
  else if b < 0xF5 then
    let okFirst : UInt8 → Bool := fun c1 =>
      if b = 0xF0 then 0x90 ≤ c1 && c1 < 0xC0
      else if b = 0xF4 then 0x80 ≤ c1 && c1 < 0x90
      else isCont c1
    match rest with
    | c1 :: r1 =>
      if okFirst c1 then
        match r1 with
        | c2 :: r2 =>
          if isCont c2 then
            match r2 with
            | c3 :: r3 =>
              if isCont c3 then
                (Char.ofNat (((b.toNat &&& 0x07) <<< 18) |||
                  (contVal c1 <<< 12) ||| (contVal c2 <<< 6) ||| contVal c3), r3)
              else (replChar, r2)
            | [] => (replChar, [])
          else (replChar, r1)
        | [] => (replChar, [])
      else (replChar, rest)
    | [] => (replChar, [])
  else (replChar, rest)

/-- Fuel-indexed driver for the lossy decoder; each round consumes at least
one byte, so fuel equal to the input length suffices. -/
def utf8LossyGo : Nat → List UInt8 → List Char
  | 0, _ => []
  | _, [] => []
  | Nat.succ fuel, b :: rest =>
    let (c, rest') := utf8DecodeOne b rest
    c :: utf8LossyGo fuel rest'

/-- Embeds `String::from_utf8_lossy(..).to_string()`: total decoding of
arbitrary bytes, substituting U+FFFD for invalid sequences. -/
def fromUtf8Lossy (bs : List UInt8) : String :=
  String.mk (utf8LossyGo bs.length bs)

/-- Embeds `<Markdown as Parse>::parse` (`src/roxy.rs:53-59`): decode `src`
lossily to text, run the pulldown_cmark engine on it, and write the produced
HTML into `dst` (`write_html` appends to its writer, and writing into a
`Vec<u8>` is infallible, so the step always returns `Ok`).  The external
pulldown_cmark engine is the parameter `engine`, a total text-to-HTML
function; the context path is accepted but unused, as in the source
(`_path`). -/
def Markdown.parse (engine : String → String) (_path : String)
    (src dst : List UInt8) : Except IoError (List UInt8) :=
  Except.ok (dst ++ strBytes (engine (fromUtf8Lossy src)))

/-- C7: Markdown totality under lossy decoding — for every engine, context
identifier and input byte sequence (including invalid UTF-8) the Markdown
step returns `Ok`; and the lossy decoder repairs an invalid byte with the
replacement marker U+FFFD instead of rejecting the input (shown on the
damaged sequence `[0x68, 0xFF, 0x69]`). -/
theorem markdown_total :
    (∀ (engine : String → String) (path : String) (src : List UInt8),
      ∃ out, Markdown.parse engine path src [] = Except.ok out) ∧
    fromUtf8Lossy [0x68, 0xFF, 0x69] =
      String.mk [Char.ofNat 0x68, replChar, Char.ofNat 0x69] :=
  ⟨fun engine path src => ⟨strBytes (engine (fromUtf8Lossy src)), rfl⟩, by rfl⟩

/-- C9: the Markdown step ignores the context identifier — for any two
identifiers it produces byte-for-byte the same outcome on the same input and
destination. -/
theorem markdown_ignores_context (engine : String → String) (p1 p2 : String)
    (src dst : List UInt8) :
    Markdown.parse engine p1 src dst = Markdown.parse engine p2 src dst :=
  rfl

/-- The left brace character (written via its code point). -/
def lbrace : Char := Char.ofNat 123

/-- The right brace character (written via its code point). -/
def rbrace : Char := Char.ofNat 125

/-- Looks a variable name up in a binding set. -/
def lookupBinding : List (String × String) → String → Option String
  | [], _ => none
  | (k, v) :: rest, key => if k = key then some v else lookupBinding rest key

/-- Collects the characters of a variable expression up to the closing
double brace; `none` when the template ends before one is found. -/
def takeVar : List Char → Option (List Char × List Char)
  | c :: c2 :: cs =>
    if c = rbrace ∧ c2 = rbrace then some ([], cs)
    else (takeVar (c2 :: cs)).map (fun pr => (c :: pr.1, pr.2))
  | _ => none

/-- Drops leading and trailing spaces of a variable expression. -/
def trimChars (cs : List Char) : List Char :=
  ((cs.dropWhile (· = ' ')).reverse.dropWhile (· = ' ')).reverse

/-- Fuel-indexed template scanner: copies literal characters through and
replaces each double-braced variable expression by its binding; an unbound
variable or an unterminated expression is an engine error with a descriptive
message.  Each round consumes at least one character, so fuel equal to the
template length suffices. -/
def renderGo (bs : List (String × String)) : Nat → List Char →
    Except String (List Char)
  | _, [] => Except.ok []
  | 0, cs => Except.ok cs
  | Nat.succ fuel, c :: cs =>
    if c = lbrace ∧ cs.head? = some lbrace then
      match takeVar cs.tail with
      | none =>
        Except.error "unexpected end of template: expression is unterminated"
      | some (varChars, rest) =>
        let name := String.mk (trimChars varChars)
        match lookupBinding bs name with
        | some v => (renderGo bs fuel rest).map (fun out => v.data ++ out)
        | none =>
          Except.error ("Variable " ++ name ++
            " not found in context while rendering")
    else
      (renderGo bs fuel cs).map (fun out => c :: out)

/-- Modelled from the spec: the external tera template engine
(`add_raw_template` followed by `render_to`), which is not part of this
repository's sources.  Per the spec it substitutes each double-braced
variable by its value from the fixed binding set; the two failure points —
registration (malformed template) and rendering (undefined binding) — are
folded into one error carrying a human-readable message. -/
def teraRender (tpl : String) (bs : List (String × String)) :
    Except String String :=
  (renderGo bs tpl.data.length tpl.data).map String.mk

/-- Embeds `<Html as Parse>::parse` (`src/roxy.rs:73-85`): decode the source
lossily into a template body, register it under the key `path` and render it
against the instance's fixed binding set (the external tera engine is
`teraRender`; registering then immediately rendering the template under
`path` renders exactly the just-registered body, so the key does not affect
the produced bytes); `render_to` appends the rendered bytes to `dst`.  Both
tera failure points are mapped by the closure
`err = |_| io::Error::new(InvalidData, "fail")`, which discards the engine's
message. -/
def Html.parse (bindings : List (String × String)) (path : String)
    (src dst : List UInt8) : Except IoError (List UInt8) :=
  let _registryKey := path
  match teraRender (fromUtf8Lossy src) bindings with
  | Except.ok out => Except.ok (dst ++ strBytes out)
  | Except.error _ => Except.error ⟨ErrorKind.invalidData, "fail"⟩

/-- C6 (code bug): when the template step fails — here a render of
`"\x7b\x7b missing \x7d\x7d"` against an empty binding set — the engine
produces a descriptive message, but `Html::parse` returns the fixed
placeholder error `io::Error::new(InvalidData, "fail")` (the source marks
this with `// TODO: This error is a hack`), so the caller never sees the
failing step's cause. -/
theorem html_error_is_fixed_placeholder :
    (∃ msg, teraRender "\x7b\x7b missing \x7d\x7d" [] = Except.error msg ∧
      msg ≠ "fail") ∧
    Html.parse [] "t.html" (strBytes "\x7b\x7b missing \x7d\x7d") [] =
      Except.error ⟨ErrorKind.invalidData, "fail"⟩ :=
  ⟨⟨"Variable missing not found in context while rendering",
    by rfl, by decide⟩, by rfl⟩

/-- Modelled from the spec: the external pulldown_cmark engine
(CommonMark-family Markdown to HTML), which is not part of this repository's
sources; restricted to the constructs exercised here — a single-line ATX
level-1 heading with plain inline text becomes `<h1>text</h1>\n`, and any
other line of plain text becomes a paragraph. -/
def mdEngine (s : String) : String :=
  match s.data with
  | '#' :: ' ' :: rest => String.mk ("<h1>".data ++ rest ++ "</h1>\n".data)
  | cs => String.mk ("<p>".data ++ cs ++ "</p>\n".data)

/-- The Markdown step of the test pipeline (`parsers.push(Markdown::new())`). -/
def mdStep : Parse :=
  ⟨Markdown.parse mdEngine⟩

/-- The Html step of the test pipeline
(`parsers.push(Html::new(Tera::default(), ctx))` with the binding
`test = "fox"`). -/
def htmlStep : Parse :=
  ⟨Html.parse [("test", "fox")]⟩

/-- C8: the concrete end-to-end scenario of the `md_and_html` test
(`src/roxy.rs:179-195`): the two-step pipeline [Markdown, Template] with
binding set `test = "fox"` and context identifier "test.html", on input
`"# \x7b\x7b test \x7d\x7d :3"`, succeeds and writes exactly the bytes of
`"<h1>fox :3</h1>\n"` into the initially empty destination. -/
theorem md_and_html_scenario :
    Parser.parse [mdStep, htmlStep] "test.html"
        (strBytes "# \x7b\x7b test \x7d\x7d :3") [] =
      (Except.ok (), strBytes "<h1>fox :3</h1>\n") := by
  rfl

/-- A step that writes the context identifier it receives (as UTF-8 bytes)
after the destination contents; used to observe which identifier the
orchestrator hands to the pipeline. -/
def pathObserver : Parse :=
  ⟨fun path _ dst => Except.ok (dst ++ strBytes path)⟩

/-- C4 counterexample: processing `"in.md"` into `"out.html"` through a step
that emits the context identifier it receives writes the bytes of the INPUT
path `"in.md"` to the output file — not the bytes of the output location —
so the context identifier `process_file` passes to the pipeline is not
derived from the output location string. -/
theorem process_file_context_counterexample :
    fsLookup (Roxy.process_file [("in.md", [120])] "in.md" "out.html"
        [pathObserver]).2 "out.html" = some (strBytes "in.md") ∧
    strBytes "in.md" ≠ strBytes "out.html" := by
  exact ⟨by rfl, by decide⟩

/-- C4 amended: in `process_file(input, output, pipeline)` the context
identifier passed to the pipeline run is the input path string, used
directly (it is `asset.path`, the path the asset was loaded from in
`read_asset`), not the output location. -/
theorem process_file_context_is_input (fs : FileSystem)
    (input output : String) (src : List UInt8)
    (h : fsLookup fs input = some src) :
    fsLookup (Roxy.process_file fs input output [pathObserver]).2 output =
      some (strBytes input) := by
  simp [Roxy.process_file, Roxy.parse, Roxy.load, h, Except.bind,
    Roxy.read_asset, Parser.parse, parseSteps, pathObserver, fsLookup]

theorem process_file_context_is_input_witness :
    fsLookup [("a.md", [1])] "a.md" = some [1] ∧
    fsLookup (Roxy.process_file [("a.md", [1])] "a.md" "b.html"
        [pathObserver]).2 "b.html" = some (strBytes "a.md") :=
  ⟨by rfl,
    process_file_context_is_input [("a.md", [1])] "a.md" "b.html" [1] (by rfl)⟩
